import Mathlib

set_option maxRecDepth 4000

/-!
Verification of the Pong repository's core components against its
natural-language specification.

The neural controller (`src/js/ai.js`, class `AIController`) and the
physics/collision step (`src/audio-system.js`, classes `Vector2D`,
`PhysicsBody`, `CollisionSystem`) are shallowly embedded over exact
rational arithmetic.  Two transcendental primitives of the JavaScript
runtime have no exact rational counterpart and are abstracted as
function parameters:

* `ef : ℚ → ℚ` stands for `Math.exp`; theorems that need it assume
  positivity (`∀ x, 0 < ef x`), which holds for the real exponential.
* `f : ℚ → ℚ` stands for `Math.sqrt`; theorems that need exactness
  assume `IsSqrtAt f q` (a correct nonnegative square root) at the
  finitely many points where the code calls it.

Fallible JavaScript code (array accesses that would throw a
`TypeError`) is modelled with `Option`; `none` models a thrown
exception.  The unbounded `while` loop in `predictBallY` is modelled
with explicit fuel; divergence of the loop is `none` for every fuel.
-/

namespace Pong

/-! ## Neural network: data model (`src/js/ai.js`)

`createNetwork` builds layers `{ weights, biases, activation }` with
`weights` a rows×cols array (rows = inputs, cols = units) and
`activation` either `'relu'` or `'softmax'`. -/

inductive Act where
  | relu : Act
  | softmax : Act
deriving DecidableEq

structure Layer where
  weights : List (List ℚ)
  biases : List ℚ
  activation : Act
deriving DecidableEq

/-- Shape of one layer as produced by `createNetwork`:
`rows` weight rows, each of length `cols`, `cols` biases, given activation. -/
def LayerShaped (L : Layer) (rows cols : ℕ) (a : Act) : Prop :=
  L.weights.length = rows ∧ (∀ row ∈ L.weights, row.length = cols) ∧
    L.biases.length = cols ∧ L.activation = a

instance (L : Layer) (rows cols : ℕ) (a : Act) :
    Decidable (LayerShaped L rows cols a) := by
  unfold LayerShaped; infer_instance

/-- The fixed topology of `createNetwork`: 4→16 relu, 16→8 relu, 8→3 softmax. -/
def NetShaped (net : List Layer) : Prop :=
  match net with
  | [L0, L1, L2] =>
      LayerShaped L0 4 16 .relu ∧ LayerShaped L1 16 8 .relu ∧
        LayerShaped L2 8 3 .softmax
  | _ => False

instance (net : List Layer) : Decidable (NetShaped net) := by
  unfold NetShaped
  cases net with
  | nil => exact inferInstanceAs (Decidable False)
  | cons a t =>
    cases t with
    | nil => exact inferInstanceAs (Decidable False)
    | cons b t2 =>
      cases t2 with
      | nil => exact inferInstanceAs (Decidable False)
      | cons c t3 =>
        cases t3 with
        | nil => exact inferInstanceAs (Decidable (_ ∧ _ ∧ _))
        | cons d t4 => exact inferInstanceAs (Decidable False)

/-! ## Forward pass (`relu`, `softmax`, `matrixMultiply`, `forwardPass`) -/

/-- Embeds `relu(x) = Math.max(0, x)`. -/
def relu (x : ℚ) : ℚ := max 0 x

/-- Embeds `Math.max(...values)`.  JavaScript returns `-Infinity` on an empty
array; the code only applies it to the nonempty softmax logit vector,
so the empty case (defaulted to `0` here) is unreachable. -/
def listMax : List ℚ → ℚ
  | [] => 0
  | x :: xs => xs.foldl max x

/-- Embeds `softmax(values)`: subtract the max logit, exponentiate with `ef`
(the abstraction of `Math.exp`), divide by the sum.  Division by zero
follows the Lean convention `x / 0 = 0`; under `0 < ef x` the sum is
nonzero whenever `values` is nonempty. -/
def softmaxE (ef : ℚ → ℚ) (values : List ℚ) : List ℚ :=
  let m := listMax values
  let exps := values.map fun v => ef (v - m)
  let sum := exps.sum
  exps.map fun x => x / sum

/-- The inner loop of `matrixMultiply`:
`for (i) sum += input[i] * weights[i][j]`.
Walks `input` and the weight rows in parallel; if `input` is longer
than `weights`, JavaScript evaluates `undefined[j]` and throws, which
is modelled by `none`.  (`row.getD j 0`: for the fixed topology `j` is
always within the row, so the JavaScript `NaN` from a short row is
unreachable.) -/
def dotColumn : List ℚ → List (List ℚ) → ℕ → Option ℚ
  | [], _, _ => some 0
  | _ :: _, [], _ => none
  | x :: xs, row :: rest, j =>
      (dotColumn xs rest j).map fun s => x * row.getD j 0 + s

/-- The outer loop of `matrixMultiply` over the column indices `j`. -/
def mmCols (input : List ℚ) (weights : List (List ℚ)) (biases : List ℚ) :
    List ℕ → Option (List ℚ)
  | [] => some []
  | j :: js => do
      let s ← dotColumn input weights j
      let rest ← mmCols input weights biases js
      pure ((biases.getD j 0 + s) :: rest)

/-- Embeds `matrixMultiply(input, weights, biases)`: `output[j] = biases[j] +
Σᵢ input[i]·weights[i][j]` for `j < weights[0].length`.  An empty
weight matrix makes `weights[0].length` throw (`none`). -/
def matrixMultiply (input : List ℚ) (weights : List (List ℚ))
    (biases : List ℚ) : Option (List ℚ) :=
  match weights with
  | [] => none
  | w0 :: _ => mmCols input weights biases (List.range w0.length)

/-- Apply a layer's activation to its pre-activation vector. -/
def applyActivation (ef : ℚ → ℚ) (a : Act) (z : List ℚ) : List ℚ :=
  match a with
  | .relu => z.map fun v => relu v
  | .softmax => softmaxE ef z

/-- The layer loop of `forwardPass`, returning the list of activations
pushed after the input (`activations[1..]`). -/
def forwardAux (ef : ℚ → ℚ) : List Layer → List ℚ → Option (List (List ℚ))
  | [], _ => some []
  | L :: rest, a => do
      let z ← matrixMultiply a L.weights L.biases
      let a' := applyActivation ef L.activation z
      let tail ← forwardAux ef rest a'
      pure (a' :: tail)

/-- Embeds `forwardPass(inputs)`: returns `{ output, activations }` where
`activations` starts with the input vector and `output` is the last
activation. -/
def forwardPass (ef : ℚ → ℚ) (net : List Layer) (inputs : List ℚ) :
    Option (List ℚ × List (List ℚ)) :=
  (forwardAux ef net inputs).map fun acts =>
    ((acts.getLast?).getD inputs, inputs :: acts)

/-! ## Backpropagation (`updateWeights`, `trainOnRecentData`, `reward`, `punish`)

`updateWeights(activations, error)` walks the layers from last to
first.  For layer `l` with incoming `error` and `prevActivation =
activations[l]` it runs

```
for (j < error.length) {
  biases[j] += lr * error[j];
  for (i < prevActivation.length) {
    weights[i][j] += lr * error[j] * prevActivation[i];
    if (l > 0) nextError[i] += error[j] * weights[i][j];   // updated value
  }
}
if (l > 0 && layer.activation === 'relu')
  nextError[i] = activations[l][i] > 0 ? nextError[i] : 0;
```

Every cell `weights[i][j]` is written once and read (by the
`nextError` accumulation at the same `(i, j)`) only after that write,
and distinct `(i, j)` pairs do not interfere, so the loops are modelled
row-functionally: each row `i` is updated columnwise and `nextError[i]`
is the dot product of `error` with the updated row.  Rational addition
is commutative, so the accumulation order is immaterial. -/

/-- Column loop of the weight update for one row `i` with forward
activation `ai`: `w[j] ← w[j] + lr·error[j]·ai` for `j <
error.length`; columns beyond `error.length` are untouched.  (For the
fixed topology `error.length` always equals the row length.) -/
def updColumnwise (lr ai : ℚ) (error row : List ℚ) : List ℚ :=
  List.zipWith (fun ej w => w + lr * ej * ai) error row ++ row.drop error.length

/-- Bias loop: `b[j] ← b[j] + lr·error[j]` for `j < error.length`. -/
def updBiases (lr : ℚ) (error biases : List ℚ) : List ℚ :=
  List.zipWith (fun ej b => b + lr * ej) error biases ++ biases.drop error.length

/-- Embeds `nextError[i] = Σⱼ error[j] · weights'[i][j]` where `weights'` is
the row already updated by the same call (the code reads
`layer.weights[i][j]` after the `+=`). -/
def rawNextError (lr : ℚ) (error prevAct : List ℚ)
    (weights : List (List ℚ)) : List ℚ :=
  List.zipWith
    (fun ai row =>
      (List.zipWith (fun ej w => ej * w) error (updColumnwise lr ai error row)).sum)
    prevAct weights

/-- One layer of `updateWeights`: updated layer plus the error handed
to the previous layer.  `isFirst` is `l = 0`: there the `nextError`
accumulation and the relu gate are both skipped (the guard `l > 0`),
leaving the zero-filled array.  The relu gate fires only when the
*processed* layer's activation is `'relu'`, zeroing entries where the
layer's input activation `prevAct[i]` is not positive. -/
def stepLayer (lr : ℚ) (isFirst : Bool) (L : Layer) (prevAct error : List ℚ) :
    Layer × List ℚ :=
  let W := List.zipWith (fun ai row => updColumnwise lr ai error row)
      prevAct L.weights ++ L.weights.drop prevAct.length
  let b := updBiases lr error L.biases
  let ne0 := if isFirst then List.replicate prevAct.length (0 : ℚ)
    else rawNextError lr error prevAct L.weights
  let ne := if isFirst = false ∧ L.activation = .relu then
      List.zipWith (fun ai x => if ai > 0 then x else (0 : ℚ)) prevAct ne0
    else ne0
  (⟨W, b, L.activation⟩, ne)

/-- The layer recursion of `updateWeights`: layers are processed from
the last back to the first, so the recursive call on the tail runs
first and hands its propagated error to the head layer.  `acts` is the
`activations` list aligned so that its head is the input activation of
the head layer. -/
def backpropAux (lr : ℚ) (isFirst : Bool) :
    List Layer → List (List ℚ) → List ℚ → List Layer × List ℚ
  | [], _, err => ([], err)
  | L :: rest, acts, finalErr =>
      let res := backpropAux lr false rest acts.tail finalErr
      let step := stepLayer lr isFirst L (acts.headD []) res.2
      (step.1 :: res.1, step.2)

/-- Embeds `updateWeights(activations, error)`: returns the mutated layer
list (the network is updated in place in JavaScript). -/
def updateWeights (lr : ℚ) (net : List Layer) (activations : List (List ℚ))
    (finalError : List ℚ) : List Layer :=
  (backpropAux lr true net activations finalError).1

/-- The error vector consumed when `updateWeights` processes layer
`l`: it is produced by the recursion over the layers after `l`.  For
the last layer this is `finalError` itself. -/
def incomingError (lr : ℚ) (net : List Layer) (activations : List (List ℚ))
    (finalError : List ℚ) (l : ℕ) : List ℚ :=
  (backpropAux lr false (net.drop (l + 1)) (activations.drop (l + 1)) finalError).2

/-! ## Controller state, training buffer and training calls -/

/-- One entry of `trainingData`: `{ inputs, action }` with `action` a
one-hot vector. -/
structure Sample where
  inputs : List ℚ
  action : List ℚ
deriving DecidableEq

/-- Embeds `AIController` state relevant to the claims: the network and the
training buffer.  `learningRate` (0.01) and `maxTrainingData` (200)
are the constructor constants. -/
structure Ctrl where
  network : List Layer
  trainingData : List Sample
deriving DecidableEq

def learningRate : ℚ := 1 / 100

def maxTrainingData : ℕ := 200

/-- Game-state inputs of `normalizeInputs` / `predict` /
`recordDecision`: the fields of `ball` the AI reads. -/
structure BallG where
  x : ℚ
  y : ℚ
  speedX : ℚ
  speedY : ℚ
deriving DecidableEq

/-- The fields of `paddle` the AI reads. -/
structure PaddleG where
  x : ℚ
  y : ℚ
  height : ℚ
deriving DecidableEq

/-- Embeds `normalizeInputs(ball, paddle, canvasWidth, canvasHeight)`. -/
def normalizeInputs (ball : BallG) (paddle : PaddleG) (cw ch : ℚ) : List ℚ :=
  [ball.y / ch, ball.speedY / 10, (ball.x - paddle.x) / cw, paddle.y / ch]

/-- The one-hot construction of `recordDecision`:
`actionOneHot = [0,0,0]; actionOneHot[action + 1] = 1`.  Modelled with
`List.set`, which matches JavaScript for the actions `predict`
produces (−1, 0, 1); for any other action JavaScript would grow or
skip the array, a case no theorem below depends on. -/
def actionOneHot (action : ℤ) : List ℚ :=
  ([0, 0, 0] : List ℚ).set (action + 1).toNat 1

/-- The sample pushed by `recordDecision`. -/
def buildSample (ball : BallG) (paddle : PaddleG) (cw ch : ℚ)
    (action : ℤ) : Sample :=
  ⟨normalizeInputs ball paddle cw ch, actionOneHot action⟩

/-- The buffer update of `recordDecision`: `push`, then `shift` (drop
the oldest element) when the length exceeds `maxTrainingData`. -/
def pushSample (buf : List Sample) (s : Sample) : List Sample :=
  let b := buf ++ [s]
  if b.length > maxTrainingData then b.tail else b

/-- Embeds `recordDecision(ball, paddle, canvasWidth, canvasHeight, action)`. -/
def recordDecision (st : Ctrl) (ball : BallG) (paddle : PaddleG)
    (cw ch : ℚ) (action : ℤ) : Ctrl :=
  { st with trainingData :=
      pushSample st.trainingData (buildSample ball paddle cw ch action) }

/-- Argument tuple of one `recordDecision` call, for iterating it. -/
structure RecArg where
  ball : BallG
  paddle : PaddleG
  cw : ℚ
  ch : ℚ
  action : ℤ
deriving DecidableEq

/-- Iterate `recordDecision` over a list of calls. -/
def recordAll (st : Ctrl) (l : List RecArg) : Ctrl :=
  l.foldl (fun s a => recordDecision s a.ball a.paddle a.cw a.ch a.action) st

/-- Embeds `error[i] = (data.action[i] - output[i]) * rewardFactor` for `i < 3`. -/
def errVec (s : Sample) (output : List ℚ) (rf : ℚ) : List ℚ :=
  (List.range 3).map fun i => (s.action.getD i 0 - output.getD i 0) * rf

/-- One iteration of the training loop: forward pass on the sample,
error computation, `updateWeights`.  A failing forward pass (a thrown
`TypeError`) aborts the call (`none`); it is unreachable for the
buffers the controller itself builds. -/
def trainStep (ef : ℚ → ℚ) (rf : ℚ) (net : List Layer) (s : Sample) :
    Option (List Layer) :=
  match forwardPass ef net s.inputs with
  | none => none
  | some (output, activations) =>
      some (updateWeights learningRate net activations (errVec s output rf))

/-- Embeds `trainOnRecentData(rewardFactor)`: no-op below 10 samples,
otherwise train on the last 30 samples (`slice(-30)`). -/
def trainOnRecentData (ef : ℚ → ℚ) (rf : ℚ) (st : Ctrl) : Option Ctrl :=
  if st.trainingData.length < 10 then some st
  else
    let recent := st.trainingData.drop (st.trainingData.length - 30)
    (recent.foldlM (fun net s => trainStep ef rf net s) st.network).map
      fun net => { st with network := net }

/-- Embeds `reward()`: silent no-op below 20 samples, else train with factor 1.0. -/
def reward (ef : ℚ → ℚ) (st : Ctrl) : Option Ctrl :=
  if st.trainingData.length < 20 then some st
  else trainOnRecentData ef 1 st

/-- Embeds `punish()`: silent no-op below 20 samples, else train with factor −0.5. -/
def punish (ef : ℚ → ℚ) (st : Ctrl) : Option Ctrl :=
  if st.trainingData.length < 20 then some st
  else trainOnRecentData ef (-(1 / 2)) st

/-! ## `predictBallY` and `predict`

`predictBallY` runs an unbounded `while` loop folding the predicted
`y` back into `[0, canvasHeight]` by reflection.  The loop is modelled
with fuel; `foldY n y ch = none` for every `n` exactly when the
JavaScript loop never terminates.  The embedding of `timeToReach`
uses exact division, so it is faithful only for `ball.speedX ≠ 0`
(JavaScript produces `Infinity` on division by zero); theorems about
states with `speedX = 0` are avoided below. -/

/-- The reflection loop of `predictBallY`:
`while (y < 0 || y > ch) { if (y < 0) y = -y; else y = 2*ch - y; }`. -/
def foldY : ℕ → ℚ → ℚ → Option ℚ
  | 0, y, ch => if y < 0 ∨ y > ch then none else some y
  | n + 1, y, ch =>
      if y < 0 ∨ y > ch then foldY n (if y < 0 then -y else 2 * ch - y) ch
      else some y

/-- Embeds `predictBallY(ball, targetX, canvasWidth, canvasHeight)` with
explicit loop fuel.  `canvasWidth` is accepted and unused, as in the
source. -/
def predictBallY (fuel : ℕ) (ball : BallG) (targetX cw ch : ℚ) : Option ℚ :=
  let timeToReach := |targetX - ball.x| / |ball.speedX|
  foldY fuel (ball.y + ball.speedY * timeToReach) ch

/-- Embeds `predict(ball, paddle, canvasWidth, canvasHeight)`.  `none` models
a thrown exception or a diverging `predictBallY` loop (for every
fuel). -/
def predict (ef : ℚ → ℚ) (fuel : ℕ) (net : List Layer) (ball : BallG)
    (paddle : PaddleG) (cw ch : ℚ) : Option ℤ :=
  match forwardPass ef net (normalizeInputs ball paddle cw ch) with
  | none => none
  | some (output, _) =>
      match predictBallY fuel ball paddle.x cw ch with
      | none => none
      | some predictedY =>
          if ball.speedX > 0 then
            let targetY := predictedY - paddle.height / 2
            let diff := targetY - paddle.y
            if |diff| < 5 then some 0
            else if diff > 0 then
              some (if output.getD 2 0 > output.getD 0 0 then 1 else 0)
            else
              some (if output.getD 0 0 > output.getD 2 0 then -1 else 0)
          else
            let diff := ch / 2 - paddle.y - paddle.height / 2
            if |diff| < 10 then some 0
            else some (if diff > 0 then 1 else -1)

/-! ## Physics (`src/audio-system.js`)

`Vector2D` with its guarded `divide` and `normalize`, the relevant
`GAME_CONFIG.physics` constants, `PhysicsBody.update`, and
`CollisionSystem.resolveCircleRect` / `resolveCircleCircle`.
`Math.sqrt` is abstracted by a parameter `f : ℚ → ℚ`; `IsSqrtAt f q`
states that `f` is a correct square root at the point `q`. -/

structure Vec2 where
  x : ℚ
  y : ℚ
deriving DecidableEq

/-- Property: `f` is an exact nonnegative square root at the point `q`. -/
def IsSqrtAt (f : ℚ → ℚ) (q : ℚ) : Prop := 0 ≤ f q ∧ f q * f q = q

instance (f : ℚ → ℚ) (q : ℚ) : Decidable (IsSqrtAt f q) := by
  unfold IsSqrtAt; infer_instance

def vadd (v w : Vec2) : Vec2 := ⟨v.x + w.x, v.y + w.y⟩

def vsub (v w : Vec2) : Vec2 := ⟨v.x - w.x, v.y - w.y⟩

def smul (v : Vec2) (s : ℚ) : Vec2 := ⟨v.x * s, v.y * s⟩

/-- Embeds `Vector2D.divide`: guarded against a zero scalar. -/
def vdiv (v : Vec2) (s : ℚ) : Vec2 :=
  if s = 0 then ⟨0, 0⟩ else ⟨v.x / s, v.y / s⟩

def dotV (v w : Vec2) : ℚ := v.x * w.x + v.y * w.y

/-- Embeds `Vector2D.magnitude` via the abstract square root `f`. -/
def magnitude (f : ℚ → ℚ) (v : Vec2) : ℚ := f (v.x * v.x + v.y * v.y)

/-- Embeds `Vector2D.normalize`: the zero vector maps to the zero vector. -/
def vnormalize (f : ℚ → ℚ) (v : Vec2) : Vec2 :=
  let mag := magnitude f v
  if mag = 0 then ⟨0, 0⟩ else vdiv v mag

/-- Embeds `Vector2D.limit(max)`. -/
def vlimit (f : ℚ → ℚ) (v : Vec2) (mx : ℚ) : Vec2 :=
  if magnitude f v > mx then smul (vnormalize f v) mx else v

/-- Embeds `Vector2D.distanceTo` via the abstract square root `f`. -/
def distanceTo (f : ℚ → ℚ) (v w : Vec2) : ℚ :=
  f ((v.x - w.x) ^ 2 + (v.y - w.y) ^ 2)

/-- Embeds `MathUtil.clamp(value, min, max) = Math.max(min, Math.min(max, value))`. -/
def clamp (value lo hi : ℚ) : ℚ := max lo (min hi value)

/-! ### `GAME_CONFIG.physics` constants -/

def gravityC : ℚ := 1 / 2
def airResistance : ℚ := 1 / 1000
def maxVelocity : ℚ := 30
def rotationalDamping : ℚ := 99 / 100

/-- Embeds `PhysicsBody` (the fields `update` reads or writes). -/
structure PBody where
  position : Vec2
  velocity : Vec2
  acceleration : Vec2
  force : Vec2
  mass : ℚ
  inverseMass : ℚ
  friction : ℚ
  angularVelocity : ℚ
  angularAcceleration : ℚ
  torque : ℚ
  rotation : ℚ
  momentOfInertia : ℚ
  isStatic : Bool
  affectedByGravity : Bool
  affectedByDrag : Bool
deriving DecidableEq

/-- The velocity of `PhysicsBody.update` just before the
`limit(maxVelocity)` clamp: acceleration from force (plus gravity),
Euler step, air resistance, friction factor.  None of these steps
consult `Math.sqrt`. -/
def preLimitVelocity (b : PBody) (dt : ℚ) : Vec2 :=
  let acc0 := smul b.force b.inverseMass
  let acc := if b.affectedByGravity then ⟨acc0.x, acc0.y + gravityC⟩ else acc0
  let v1 := vadd b.velocity (smul acc dt)
  let v2 := if b.affectedByDrag then vadd v1 (smul v1 (-airResistance)) else v1
  smul v2 b.friction

/-- The acceleration value `update` stores back into the body. -/
def updAcceleration (b : PBody) : Vec2 :=
  let acc0 := smul b.force b.inverseMass
  if b.affectedByGravity then ⟨acc0.x, acc0.y + gravityC⟩ else acc0

/-- Embeds `PhysicsBody.update(deltaTime)`: static bodies return untouched;
otherwise integrate, clamp the velocity to `maxVelocity`, advance the
position and the angular state, and reset force and torque. -/
def pbUpdate (f : ℚ → ℚ) (b : PBody) (dt : ℚ) : PBody :=
  if b.isStatic then b
  else
    let v4 := vlimit f (preLimitVelocity b dt) maxVelocity
    let angAcc := b.torque / b.momentOfInertia
    let omega := (b.angularVelocity + angAcc * dt) * rotationalDamping
    { b with
        position := vadd b.position (smul v4 dt)
        velocity := v4
        acceleration := updAcceleration b
        angularAcceleration := angAcc
        angularVelocity := omega
        rotation := b.rotation + omega * dt
        force := ⟨0, 0⟩
        torque := 0 }

/-! ### Collision resolution -/

/-- The ball as `resolveCircleRect` reads and writes it. -/
structure BallP where
  position : Vec2
  velocity : Vec2
  angularVelocity : ℚ
  restitution : ℚ
  radius : ℚ
deriving DecidableEq

structure Rect where
  x : ℚ
  y : ℚ
  width : ℚ
  height : ℚ
deriving DecidableEq

/-- The record `resolveCircleRect` returns on resolution. -/
structure ResolveInfo where
  normal : Vec2
  impulse : Vec2
  point : Vec2
  velocity : Vec2
deriving DecidableEq

/-- The closest point on the rectangle to the ball center. -/
def rectClosest (ball : BallP) (rect : Rect) : Vec2 :=
  ⟨clamp ball.position.x rect.x (rect.x + rect.width),
   clamp ball.position.y rect.y (rect.y + rect.height)⟩

/-- The contact normal of `resolveCircleRect`: the normalized offset
from the closest point, patched to `x = 1` when its recomputed
magnitude is zero (the degenerate-geometry fallback). -/
def rectContactNormal (f : ℚ → ℚ) (ball : BallP) (rect : Rect) : Vec2 :=
  let c := rectClosest ball rect
  let n0 := vnormalize f (vsub ball.position c)
  if magnitude f n0 = 0 then ⟨1, n0.y⟩ else n0

/-- Embeds `CollisionSystem.resolveCircleRect(ball, rect, rectVel)`: returns
the mutated ball and the result record (`none` models the bare
`return` of the separating early-out, which leaves the ball
untouched). -/
def resolveCircleRect (f : ℚ → ℚ) (ball : BallP) (rect : Rect)
    (rectVel : Vec2) : BallP × Option ResolveInfo :=
  let c := rectClosest ball rect
  let normal := rectContactNormal f ball rect
  let relVel := vsub ball.velocity rectVel
  let velAlongNormal := dotV relVel normal
  if velAlongNormal > 0 then (ball, none)
  else
    let e := ball.restitution
    let j := -(1 + e) * velAlongNormal
    let impulse := smul normal j
    let offsetY := ball.position.y - (rect.y + rect.height / 2)
    let separation := ball.radius - magnitude f normal
    ({ ball with
        velocity := vadd ball.velocity impulse
        angularVelocity := ball.angularVelocity + offsetY * (1 / 100)
        position := vadd ball.position (smul normal separation) },
     some ⟨normal, impulse, c, relVel⟩)

/-- A body as `resolveCircleCircle` reads and writes it. -/
structure BodyC where
  position : Vec2
  velocity : Vec2
  restitution : ℚ
  radius : ℚ
  inverseMass : ℚ
deriving DecidableEq

/-- Embeds `CollisionSystem.resolveCircleCircle(c1, c2)`: returns the two
mutated bodies (unchanged on the separating early-out). -/
def resolveCircleCircle (f : ℚ → ℚ) (c1 c2 : BodyC) : BodyC × BodyC :=
  let normal := vnormalize f (vsub c1.position c2.position)
  let relVel := vsub c1.velocity c2.velocity
  let velAlongNormal := dotV relVel normal
  if velAlongNormal > 0 then (c1, c2)
  else
    let e := min c1.restitution c2.restitution
    let j := -(1 + e) * velAlongNormal
    let impulse := smul normal (j / (c1.inverseMass + c2.inverseMass))
    let overlap := (c1.radius + c2.radius) - distanceTo f c1.position c2.position
    let separation := smul normal (overlap / 2)
    ({ c1 with
        velocity := vadd c1.velocity (smul impulse c1.inverseMass)
        position := vadd c1.position separation },
     { c2 with
        velocity := vsub c2.velocity (smul impulse c2.inverseMass)
        position := vsub c2.position separation })

/-! ## Concrete instances used by counterexamples and witnesses

The runtime network has Xavier-random weights; any rational weight
assignment of the `createNetwork` shape is a reachable program state,
so concrete networks of that shape serve as counterexample inputs. -/

/-- A stand-in for `Math.exp` in concrete evaluations: the constant 1
is positive, which is the only property of `Math.exp` the code's
behavior depends on (and softmax of an all-equal logit vector is
independent of the exponential map). -/
def efOne : ℚ → ℚ := fun _ => 1

/-- A network of the `createNetwork` shape with all weights and biases
zero. -/
def zeroNet : List Layer :=
  [⟨List.replicate 4 (List.replicate 16 0), List.replicate 16 0, .relu⟩,
   ⟨List.replicate 16 (List.replicate 8 0), List.replicate 8 0, .relu⟩,
   ⟨List.replicate 8 (List.replicate 3 0), List.replicate 3 0, .softmax⟩]

/-- A network of the `createNetwork` shape whose only nonzero weight
is `layers[2].weights[0][0] = 1`. -/
def gateNet : List Layer :=
  [⟨List.replicate 4 (List.replicate 16 0), List.replicate 16 0, .relu⟩,
   ⟨List.replicate 16 (List.replicate 8 0), List.replicate 8 0, .relu⟩,
   ⟨[1, 0, 0] :: List.replicate 7 [0, 0, 0], [0, 0, 0], .softmax⟩]

/-- The training sample used by the C1 counterexample: inputs
`[0,0,0,0]`, one-hot action "move down". -/
def gateSample : Sample := ⟨[0, 0, 0, 0], [0, 0, 1]⟩

/-- The activations `forwardPass` computes for `gateSample` on
`gateNet`: all hidden relu activations are 0. -/
def gateActs : List (List ℚ) :=
  [[0, 0, 0, 0], List.replicate 16 0, List.replicate 8 0,
   [1 / 3, 1 / 3, 1 / 3]]

/-- The output error of the `punish` call (`rewardFactor = −0.5`) for
`gateSample`. -/
def gateErr : List ℚ := [1 / 6, 1 / 6, -(1 / 3)]

/-- Distance from `y` to the interval `[0, ch]`, the termination
measure of the reflection loop in `predictBallY`. -/
def distQ (y ch : ℚ) : ℚ := if y < 0 then -y else if y > ch then y - ch else 0

/-- Property: `predict` terminates with some action, for some amount of loop
fuel.  (With unbounded fuel the model coincides with the JavaScript
`while` loop, so this Prop is "the `predict` call returns".) -/
def predictEverReturns (ef : ℚ → ℚ) (net : List Layer) (ball : BallG)
    (paddle : PaddleG) (cw ch : ℚ) : Prop :=
  ∃ fuel r, predict ef fuel net ball paddle cw ch = some r

/-- The sample a `recordDecision` call with the given arguments pushes. -/
def buildArg (a : RecArg) : Sample :=
  buildSample a.ball a.paddle a.cw a.ch a.action

/-- The per-layer description of what one `updateWeights` call does on
a three-layer relu/relu/softmax network, written with plain indexed
sums (the claim's vocabulary): writing `e2`/`e1` for the error vectors
handed to the middle and first layers,

* `e2[i] = Σⱼ e3[j]·(W2[i][j] + lr·e3[j]·a2[i])` — the weighted sum
  through the just-updated last-layer weights, **not** gated by the
  relu activation `a2` (the gate is keyed to the processed layer's own
  activation, and the last layer is softmax);
* `e1[i] = (a1[i] > 0 ? Σⱼ e2[j]·(W1[i][j] + lr·e2[j]·a1[i]) : 0)` —
  gated, because the processed middle layer is relu;
* every weight cell gains `lr·err[j]·act[i]` and every bias `lr·err[j]`,
  with `err` the layer's incoming error and `act` its input activation.
-/
def BackpropDescribes (lr : ℚ) (L0 L1 L2 : Layer) (a0 a1 a2 a3 e3 : List ℚ) :
    Prop :=
  let net := [L0, L1, L2]
  let acts := [a0, a1, a2, a3]
  let e2 := incomingError lr net acts e3 1
  let e1 := incomingError lr net acts e3 0
  let net' := updateWeights lr net acts e3
  (∀ i < a2.length, e2.getD i 0 =
      ∑ j ∈ Finset.range e3.length,
        e3.getD j 0 * ((L2.weights.getD i []).getD j 0 +
          lr * e3.getD j 0 * a2.getD i 0)) ∧
  (∀ i < a1.length, e1.getD i 0 =
      if a1.getD i 0 > 0 then
        ∑ j ∈ Finset.range e2.length,
          e2.getD j 0 * ((L1.weights.getD i []).getD j 0 +
            lr * e2.getD j 0 * a1.getD i 0)
      else 0) ∧
  (∀ i < a2.length, ∀ j < e3.length,
      (((net'.getD 2 L2).weights.getD i []).getD j 0 =
        (L2.weights.getD i []).getD j 0 + lr * e3.getD j 0 * a2.getD i 0)) ∧
  (∀ j < e3.length,
      (net'.getD 2 L2).biases.getD j 0 = L2.biases.getD j 0 + lr * e3.getD j 0) ∧
  (∀ i < a1.length, ∀ j < e2.length,
      (((net'.getD 1 L1).weights.getD i []).getD j 0 =
        (L1.weights.getD i []).getD j 0 + lr * e2.getD j 0 * a1.getD i 0)) ∧
  (∀ j < e2.length,
      (net'.getD 1 L1).biases.getD j 0 = L1.biases.getD j 0 + lr * e2.getD j 0) ∧
  (∀ i < a0.length, ∀ j < e1.length,
      (((net'.getD 0 L0).weights.getD i []).getD j 0 =
        (L0.weights.getD i []).getD j 0 + lr * e1.getD j 0 * a0.getD i 0)) ∧
  (∀ j < e1.length,
      (net'.getD 0 L0).biases.getD j 0 = L0.biases.getD j 0 + lr * e1.getD j 0)

/-! ### Concrete physics instances -/

/-- Square-root stand-in that is exact at the points the C5 scenario
evaluates it (9, 1 and 0). -/
def f5 : ℚ → ℚ := fun q => if q = 9 then 3 else if q = 1 then 1 else 0

/-- Scenario D exactly as the specification states it: the ball moving
with velocity (5, 3), overlapping a rectangle whose contact normal
comes out (0, 1), restitution 1. -/
def ball5 : BallP := ⟨⟨5, 3⟩, ⟨5, 3⟩, 0, 1, 4⟩

/-- The wall rectangle realizing contact normal (0, 1): its top edge
is the line `y = 0`. -/
def rect5 : Rect := ⟨0, -4, 10, 4⟩

/-- The same geometry with the ball actually approaching the wall
(velocity (5, −3)). -/
def ball5w : BallP := ⟨⟨5, 3⟩, ⟨5, -3⟩, 0, 1, 4⟩

/-- Square-root stand-in exact at 1 and 0. -/
def f6 : ℚ → ℚ := fun q => if q = 1 then 1 else 0

/-- Two overlapping unit circles at rest: relative normal velocity is
exactly 0. -/
def c61 : BodyC := ⟨⟨0, 0⟩, ⟨0, 0⟩, 1, 1, 1⟩

def c62 : BodyC := ⟨⟨1, 0⟩, ⟨0, 0⟩, 1, 1, 1⟩

/-- Square-root stand-in exact at 0 (the only point Scenario A hits
before the fallback). -/
def f0 : ℚ → ℚ := fun _ => 0

/-- Scenario A: a ball at rest with its center at the rectangle's
center. -/
def ball7 : BallP := ⟨⟨5, 2⟩, ⟨0, 0⟩, 0, 1, 4⟩

def rect7 : Rect := ⟨0, 0, 10, 4⟩

/-- Square-root stand-in exact at the single magnitude the C10 witness
needs (`98²`). -/
def f10 : ℚ → ℚ := fun _ => 98

/-- A dynamic drag-free body moving at speed 100, well above
`maxVelocity`; friction 0.98 brings it to speed 98 before the clamp. -/
def b10 : PBody :=
  ⟨⟨0, 0⟩, ⟨100, 0⟩, ⟨0, 0⟩, ⟨0, 0⟩, 1, 1, 98 / 100, 0, 0, 0, 0, 10,
   false, false, false⟩

/-- Game state whose `predictBallY` reflection loop never terminates:
canvas height 0 and predicted `y = 5` (the loop alternates 5 → −5). -/
def ball4 : BallG := ⟨0, 5, 1, 0⟩

def paddle4 : PaddleG := ⟨10, 0, 0⟩

/-- A generic `recordDecision` argument tuple for the C8 witness. -/
def arg8 : RecArg := ⟨⟨0, 5, 1, 0⟩, ⟨10, 0, 0⟩, 100, 400, 1⟩

/-! ### One-unit-per-layer network for the C1 witness -/

def wLay0 : Layer := ⟨[[2]], [0], .relu⟩

def wLay1 : Layer := ⟨[[1]], [0], .relu⟩

def wLay2 : Layer := ⟨[[1]], [0], .softmax⟩

/-! # Theorems -/

/-! ## C9: training below the 20-sample minimum is a silent no-op -/

/-- Claim C9: for every controller state whose training buffer holds
fewer than 20 samples, `reward()` and `punish()` return normally and
leave the whole controller state — in particular every weight matrix
and bias vector — unchanged. -/
theorem C9_noop_below_minimum (ef : ℚ → ℚ) (st : Ctrl)
    (h : st.trainingData.length < 20) :
    reward ef st = some st ∧ punish ef st = some st := by
  constructor
  · simp [reward, h]
  · simp [punish, h]

/-- Witness for C9 at a concrete state with an empty buffer. -/
theorem C9_noop_below_minimum_witness :
    (Ctrl.mk zeroNet []).trainingData.length < 20 ∧
      reward efOne ⟨zeroNet, []⟩ = some ⟨zeroNet, []⟩ ∧
      punish efOne ⟨zeroNet, []⟩ = some ⟨zeroNet, []⟩ :=
  ⟨by decide, C9_noop_below_minimum efOne ⟨zeroNet, []⟩ (by decide)⟩

/-! ## C6: the separating early-out -/

/-- Claim C6 (amended): resolution is skipped — both bodies returned
untouched — whenever the relative velocity along the contact normal is
*strictly* positive, for both `resolveCircleRect` and
`resolveCircleCircle`; when it is exactly zero the functions proceed,
the impulse is zero (velocities are unchanged in the circle-circle
case), but the positional-separation side effects still run. -/
theorem C6_separating_early_out :
    (∀ (f : ℚ → ℚ) (ball : BallP) (rect : Rect) (rectVel : Vec2),
      dotV (vsub ball.velocity rectVel) (rectContactNormal f ball rect) > 0 →
        resolveCircleRect f ball rect rectVel = (ball, none)) ∧
    (∀ (f : ℚ → ℚ) (c1 c2 : BodyC),
      dotV (vsub c1.velocity c2.velocity)
          (vnormalize f (vsub c1.position c2.position)) > 0 →
        resolveCircleCircle f c1 c2 = (c1, c2)) ∧
    (∀ (f : ℚ → ℚ) (c1 c2 : BodyC),
      dotV (vsub c1.velocity c2.velocity)
          (vnormalize f (vsub c1.position c2.position)) = 0 →
        ((resolveCircleCircle f c1 c2).1.velocity = c1.velocity ∧
          (resolveCircleCircle f c1 c2).2.velocity = c2.velocity)) := by
  refine ⟨?_, ?_, ?_⟩
  · intro f ball rect rectVel h
    simp [resolveCircleRect, h]
  · intro f c1 c2 h
    simp [resolveCircleCircle, h]
  · intro f c1 c2 h
    have hns : ¬ (dotV (vsub c1.velocity c2.velocity)
        (vnormalize f (vsub c1.position c2.position)) > 0) := by
      rw [h]; exact lt_irrefl 0
    constructor
    · simp only [resolveCircleCircle, hns, if_neg hns, h]
      simp [vadd, smul]
    · simp only [resolveCircleCircle, hns, if_neg hns, h]
      simp [vsub, smul]

/-- Witness for C6 at concrete separating inputs. -/
theorem C6_separating_early_out_witness :
    (dotV (vsub (⟨⟨1, 0⟩, ⟨3, 0⟩, 1, 1, 1⟩ : BodyC).velocity
        (⟨⟨0, 0⟩, ⟨0, 0⟩, 1, 1, 1⟩ : BodyC).velocity)
      (vnormalize f6 (vsub (⟨⟨1, 0⟩, ⟨3, 0⟩, 1, 1, 1⟩ : BodyC).position
        (⟨⟨0, 0⟩, ⟨0, 0⟩, 1, 1, 1⟩ : BodyC).position)) > 0) ∧
    resolveCircleCircle f6 ⟨⟨1, 0⟩, ⟨3, 0⟩, 1, 1, 1⟩ ⟨⟨0, 0⟩, ⟨0, 0⟩, 1, 1, 1⟩ =
      (⟨⟨1, 0⟩, ⟨3, 0⟩, 1, 1, 1⟩, ⟨⟨0, 0⟩, ⟨0, 0⟩, 1, 1, 1⟩) := by
  constructor
  · with_unfolding_all decide
  · exact C6_separating_early_out.2.1 f6 _ _ (by with_unfolding_all decide)

/-- Counterexample for C6 as stated: with relative normal velocity
exactly 0 (two overlapping circles at rest) the call is *not* skipped —
the first body's position is displaced by the separation step. -/
theorem C6_counterexample :
    dotV (vsub c61.velocity c62.velocity)
        (vnormalize f6 (vsub c61.position c62.position)) = 0 ∧
      (resolveCircleCircle f6 c61 c62).1.position ≠ c61.position := by
  with_unfolding_all decide

/-! ## C7: degenerate-geometry fallback -/

/-- The function `clamp` is the identity inside the interval. -/
theorem clamp_of_mem (x lo hi : ℚ) (h1 : lo ≤ x) (h2 : x ≤ hi) :
    clamp x lo hi = x := by
  rw [clamp, min_eq_right h2, max_eq_right h1]

/-- When the ball center lies inside the rectangle, the closest point
is the center itself. -/
theorem rectClosest_of_inside (ball : BallP) (rect : Rect)
    (hx1 : rect.x ≤ ball.position.x) (hx2 : ball.position.x ≤ rect.x + rect.width)
    (hy1 : rect.y ≤ ball.position.y) (hy2 : ball.position.y ≤ rect.y + rect.height) :
    rectClosest ball rect = ball.position := by
  rw [rectClosest, clamp_of_mem _ _ _ hx1 hx2, clamp_of_mem _ _ _ hy1 hy2]

/-- Claim C7: whenever the contact normal is zero-length (ball center
coinciding with the closest point, e.g. the center of the rectangle),
no division by zero is reached (every division in the embedding is the
source's guarded `divide`) and the normal deterministically falls back
to (1, 0); with a resting ball the resolution then proceeds to the
impulse computation carrying that fallback normal. -/
theorem C7_zero_normal_fallback (f : ℚ → ℚ) (ball : BallP) (rect : Rect)
    (hx1 : rect.x ≤ ball.position.x) (hx2 : ball.position.x ≤ rect.x + rect.width)
    (hy1 : rect.y ≤ ball.position.y) (hy2 : ball.position.y ≤ rect.y + rect.height)
    (hf0 : f 0 = 0) :
    rectContactNormal f ball rect = ⟨1, 0⟩ ∧
      (ball.velocity = ⟨0, 0⟩ →
        ∃ info, (resolveCircleRect f ball rect ⟨0, 0⟩).2 = some info ∧
          info.normal = ⟨1, 0⟩) := by
  have hclosest := rectClosest_of_inside ball rect hx1 hx2 hy1 hy2
  have hd : vsub ball.position (rectClosest ball rect) = ⟨0, 0⟩ := by
    rw [hclosest]; simp [vsub]
  have hmag0 : magnitude f (⟨0, 0⟩ : Vec2) = 0 := by
    simp [magnitude, hf0]
  have hn0 : vnormalize f (⟨0, 0⟩ : Vec2) = ⟨0, 0⟩ := by
    rw [vnormalize]; simp [hmag0]
  have hnormal : rectContactNormal f ball rect = ⟨1, 0⟩ := by
    rw [rectContactNormal]
    simp [hd, hn0, hmag0]
  refine ⟨hnormal, fun hv => ?_⟩
  have hvel : dotV (vsub ball.velocity ⟨0, 0⟩) (⟨1, 0⟩ : Vec2) = 0 := by
    rw [hv]; simp [vsub, dotV]
  simp only [resolveCircleRect, hnormal, hvel, lt_irrefl, if_false]
  exact ⟨_, rfl, rfl⟩

/-- Witness for C7: Scenario A, a resting ball at the exact center of
a concrete paddle rectangle. -/
theorem C7_zero_normal_fallback_witness :
    (rect7.x ≤ ball7.position.x ∧ ball7.position.x ≤ rect7.x + rect7.width ∧
      rect7.y ≤ ball7.position.y ∧ ball7.position.y ≤ rect7.y + rect7.height ∧
      f0 0 = 0 ∧ ball7.velocity = ⟨0, 0⟩) ∧
    rectContactNormal f0 ball7 rect7 = ⟨1, 0⟩ ∧
      ∃ info, (resolveCircleRect f0 ball7 rect7 ⟨0, 0⟩).2 = some info ∧
        info.normal = ⟨1, 0⟩ := by
  refine ⟨by with_unfolding_all decide, ?_⟩
  have h := C7_zero_normal_fallback f0 ball7 rect7
    (by with_unfolding_all decide) (by with_unfolding_all decide)
    (by with_unfolding_all decide) (by with_unfolding_all decide)
    (by with_unfolding_all decide)
  exact ⟨h.1, h.2 (by with_unfolding_all decide)⟩

/-! ## C5: impulse reflects the normal velocity -/

/-- Helper: the magnitude of the zero vector is zero when `f 0 = 0`. -/
theorem hmag0_aux (f : ℚ → ℚ) (hf0 : f 0 = 0) :
    magnitude f (⟨0, 0⟩ : Vec2) = 0 := by simp [magnitude, hf0]

/-- The contact normal of `resolveCircleRect` is a unit vector when
the abstract square root is exact at the squared offset (and at 0 and
1): either the offset is nonzero and normalization divides by its true
magnitude, or the (1, 0) fallback fires. -/
theorem rectContactNormal_unit (f : ℚ → ℚ) (ball : BallP) (rect : Rect)
    (hs : IsSqrtAt f (dotV (vsub ball.position (rectClosest ball rect))
      (vsub ball.position (rectClosest ball rect))))
    (hf0 : f 0 = 0) (hf1 : f 1 = 1) :
    dotV (rectContactNormal f ball rect) (rectContactNormal f ball rect) = 1 := by
  obtain ⟨hpos, hsq⟩ := hs
  set d := vsub ball.position (rectClosest ball rect) with hdd
  rw [dotV] at hsq
  by_cases hq : d.x * d.x + d.y * d.y = 0
  · have hmag : magnitude f d = 0 := by rw [magnitude, hq, hf0]
    have hn0 : vnormalize f d = ⟨0, 0⟩ := by rw [vnormalize]; simp [hmag]
    rw [rectContactNormal]
    simp only [← hdd, hn0, hmag0_aux f hf0, if_pos rfl, dotV]
    norm_num
  · have hfne : f (d.x * d.x + d.y * d.y) ≠ 0 := by
      intro h0
      rw [h0, mul_zero] at hsq
      exact hq hsq.symm
    have hmagd : magnitude f d = f (d.x * d.x + d.y * d.y) := rfl
    have hnorm : vnormalize f d =
        ⟨d.x / f (d.x * d.x + d.y * d.y), d.y / f (d.x * d.x + d.y * d.y)⟩ := by
      rw [vnormalize, hmagd, if_neg hfne, vdiv, if_neg hfne]
    have hunit : (d.x / f (d.x * d.x + d.y * d.y)) * (d.x / f (d.x * d.x + d.y * d.y)) +
        (d.y / f (d.x * d.x + d.y * d.y)) * (d.y / f (d.x * d.x + d.y * d.y)) = 1 := by
      rw [div_mul_div_comm, div_mul_div_comm, div_add_div_same, hsq]
      exact div_self hq
    have hmagn : magnitude f (vnormalize f d) = 1 := by
      rw [hnorm, magnitude]
      simp only [hunit, hf1]
    rw [rectContactNormal]
    simp only [← hdd, hmagn, one_ne_zero, if_neg (one_ne_zero (α := ℚ))]
    rw [hnorm, dotV]
    exact hunit

/-- Claim C5 (amended): when an impulse is applied (pre-collision
relative normal velocity < 0) with `0 ≤ restitution ≤ 1`, the
post-collision relative velocity along the contact normal is exactly
`−e` times its pre-collision value, hence its magnitude is at most `e`
times the pre-collision magnitude.  The Scenario-D configuration as
written (velocity (5, 3) against normal (0, 1)) does *not* satisfy the
precondition — it is separating and is left unchanged (see the
counterexample); the reflection appears for the approaching velocity
(5, −3), which leaves with (5, 3). -/
theorem C5_impulse_reflects (f : ℚ → ℚ) (ball : BallP) (rect : Rect)
    (rectVel : Vec2)
    (hs : IsSqrtAt f (dotV (vsub ball.position (rectClosest ball rect))
      (vsub ball.position (rectClosest ball rect))))
    (hf0 : f 0 = 0) (hf1 : f 1 = 1)
    (he0 : 0 ≤ ball.restitution) (he1 : ball.restitution ≤ 1)
    (hv : dotV (vsub ball.velocity rectVel) (rectContactNormal f ball rect) < 0) :
    dotV (vsub (resolveCircleRect f ball rect rectVel).1.velocity rectVel)
        (rectContactNormal f ball rect) =
      -ball.restitution *
        dotV (vsub ball.velocity rectVel) (rectContactNormal f ball rect) ∧
    |dotV (vsub (resolveCircleRect f ball rect rectVel).1.velocity rectVel)
        (rectContactNormal f ball rect)| ≤
      ball.restitution *
        |dotV (vsub ball.velocity rectVel) (rectContactNormal f ball rect)| := by
  have hnn := rectContactNormal_unit f ball rect hs hf0 hf1
  have hno : ¬ (dotV (vsub ball.velocity rectVel)
      (rectContactNormal f ball rect) > 0) := not_lt.mpr (le_of_lt hv)
  have hres : (resolveCircleRect f ball rect rectVel).1.velocity =
      vadd ball.velocity (smul (rectContactNormal f ball rect)
        (-(1 + ball.restitution) *
          dotV (vsub ball.velocity rectVel) (rectContactNormal f ball rect))) := by
    simp only [resolveCircleRect, hno, if_false]
  have key : dotV (vsub (vadd ball.velocity (smul (rectContactNormal f ball rect)
        (-(1 + ball.restitution) *
          dotV (vsub ball.velocity rectVel) (rectContactNormal f ball rect))))
        rectVel) (rectContactNormal f ball rect) =
      -ball.restitution *
        dotV (vsub ball.velocity rectVel) (rectContactNormal f ball rect) := by
    simp only [dotV, vadd, vsub, smul] at hnn ⊢
    linear_combination (-(1 + ball.restitution) *
      ((ball.velocity.x - rectVel.x) * (rectContactNormal f ball rect).x +
        (ball.velocity.y - rectVel.y) * (rectContactNormal f ball rect).y)) * hnn
  rw [hres, key]
  refine ⟨rfl, le_of_eq ?_⟩
  rw [abs_mul, abs_neg, abs_of_nonneg he0]

/-- Witness for C5: the approaching version of Scenario D — velocity
(5, −3) against the wall with contact normal (0, 1) — reflects to
relative normal velocity +3 = −1·(−3). -/
theorem C5_impulse_reflects_witness :
    (IsSqrtAt f5 (dotV (vsub ball5w.position (rectClosest ball5w rect5))
        (vsub ball5w.position (rectClosest ball5w rect5))) ∧
      f5 0 = 0 ∧ f5 1 = 1 ∧ 0 ≤ ball5w.restitution ∧ ball5w.restitution ≤ 1 ∧
      dotV (vsub ball5w.velocity ⟨0, 0⟩) (rectContactNormal f5 ball5w rect5) < 0) ∧
    dotV (vsub (resolveCircleRect f5 ball5w rect5 ⟨0, 0⟩).1.velocity ⟨0, 0⟩)
        (rectContactNormal f5 ball5w rect5) =
      -ball5w.restitution *
        dotV (vsub ball5w.velocity ⟨0, 0⟩) (rectContactNormal f5 ball5w rect5) := by
  refine ⟨by with_unfolding_all decide, ?_⟩
  exact (C5_impulse_reflects f5 ball5w rect5 ⟨0, 0⟩
    (by with_unfolding_all decide) (by with_unfolding_all decide)
    (by with_unfolding_all decide) (by with_unfolding_all decide)
    (by with_unfolding_all decide) (by with_unfolding_all decide)).1

/-- Counterexample for C5's Scenario D as stated: the ball with
velocity (5, 3) against the wall at `y = 0` with contact normal (0, 1)
and restitution 1 hits the separating early-out and leaves with
velocity (5, 3), not (5, −3). -/
theorem C5_counterexample :
    rectContactNormal f5 ball5 rect5 = ⟨0, 1⟩ ∧
    ball5.velocity = ⟨5, 3⟩ ∧ ball5.restitution = 1 ∧
    (resolveCircleRect f5 ball5 rect5 ⟨0, 0⟩).1.velocity = ⟨5, 3⟩ ∧
    (⟨5, 3⟩ : Vec2) ≠ ⟨5, -3⟩ := by
  with_unfolding_all decide

/-! ## C10: velocity clamp in `PhysicsBody.update` -/

/-- The clamp `limit(maxVelocity)` caps the squared norm at `maxVelocity²`,
given an exact square root at the squared norm. -/
theorem vlimit_sq_le (f : ℚ → ℚ) (v : Vec2) (hs : IsSqrtAt f (dotV v v)) :
    dotV (vlimit f v maxVelocity) (vlimit f v maxVelocity) ≤
      maxVelocity * maxVelocity := by
  obtain ⟨hpos, hsq⟩ := hs
  rw [dotV] at hsq
  by_cases hgt : magnitude f v > maxVelocity
  · have hfpos : (0 : ℚ) < f (v.x * v.x + v.y * v.y) := by
      have h30 : (0 : ℚ) < maxVelocity := by norm_num [maxVelocity]
      have := lt_trans h30 hgt
      rwa [magnitude] at this
    have hfne : f (v.x * v.x + v.y * v.y) ≠ 0 := ne_of_gt hfpos
    have hq0 : v.x * v.x + v.y * v.y ≠ 0 := by
      intro h
      have h2 : f (v.x * v.x + v.y * v.y) * f (v.x * v.x + v.y * v.y) = 0 := by
        rw [hsq, h]
      exact hfne (mul_self_eq_zero.mp h2)
    have hm : magnitude f v ≠ 0 := by rw [magnitude]; exact hfne
    rw [vlimit, if_pos hgt, vnormalize, if_neg hm, vdiv]
    rw [magnitude] at hm ⊢
    rw [if_neg hm]
    simp only [smul, dotV]
    have hexp : (v.x / f (v.x * v.x + v.y * v.y) * maxVelocity) *
          (v.x / f (v.x * v.x + v.y * v.y) * maxVelocity) +
        (v.y / f (v.x * v.x + v.y * v.y) * maxVelocity) *
          (v.y / f (v.x * v.x + v.y * v.y) * maxVelocity) =
        maxVelocity * maxVelocity *
          ((v.x * v.x + v.y * v.y) /
            (f (v.x * v.x + v.y * v.y) * f (v.x * v.x + v.y * v.y))) := by
      ring
    rw [hexp, hsq, div_self hq0, mul_one]
  · rw [vlimit, if_neg hgt]
    push_neg at hgt
    rw [magnitude] at hgt
    have h2 : dotV v v = f (v.x * v.x + v.y * v.y) * f (v.x * v.x + v.y * v.y) := by
      rw [dotV, hsq]
    rw [h2]
    exact mul_le_mul hgt hgt hpos (by norm_num [maxVelocity])

/-- Claim C10: for every non-static body with positive mass, any
accumulated force and any `dt ≥ 0`, the squared velocity magnitude
after `PhysicsBody.update(dt)` is at most `maxVelocity² = 900`
(equivalently, the magnitude is at most the configured `maxVelocity =
30`), assuming an exact square root at the one point the clamp
consults it. -/
theorem C10_velocity_clamped (f : ℚ → ℚ) (b : PBody) (dt : ℚ)
    (hstatic : b.isStatic = false) (hmass : 0 < b.mass) (hdt : 0 ≤ dt)
    (hs : IsSqrtAt f (dotV (preLimitVelocity b dt) (preLimitVelocity b dt))) :
    dotV (pbUpdate f b dt).velocity (pbUpdate f b dt).velocity ≤
      maxVelocity * maxVelocity := by
  have hvel : (pbUpdate f b dt).velocity =
      vlimit f (preLimitVelocity b dt) maxVelocity := by
    simp only [pbUpdate, hstatic, Bool.false_eq_true, if_false]
  rw [hvel]
  exact vlimit_sq_le f _ hs

/-- Witness for C10: a dynamic unit-mass body moving at speed 100 is
clamped to speed 30 (squared norm 900) by one `update(1)` call. -/
theorem C10_velocity_clamped_witness :
    (b10.isStatic = false ∧ 0 < b10.mass ∧ (0 : ℚ) ≤ 1 ∧
      IsSqrtAt f10 (dotV (preLimitVelocity b10 1) (preLimitVelocity b10 1))) ∧
    dotV (pbUpdate f10 b10 1).velocity (pbUpdate f10 b10 1).velocity ≤
      maxVelocity * maxVelocity := by
  have hsq : IsSqrtAt f10 (dotV (preLimitVelocity b10 1) (preLimitVelocity b10 1)) := by
    constructor <;>
      norm_num [IsSqrtAt, f10, dotV, preLimitVelocity, b10, vadd, smul,
        gravityC, airResistance]
  refine ⟨⟨by decide, by norm_num [b10], by norm_num, hsq⟩, ?_⟩
  exact C10_velocity_clamped f10 b10 1 (by decide) (by norm_num [b10])
    (by norm_num) hsq

/-! ## C8: bounded FIFO training buffer -/

/-- Unfolding: `recordAll` keeps the network and folds `pushSample` of the built
samples over the buffer. -/
theorem recordAll_eq (st : Ctrl) (l : List RecArg) :
    recordAll st l =
      ⟨st.network, (l.map buildArg).foldl pushSample st.trainingData⟩ := by
  induction l generalizing st with
  | nil => simp [recordAll]
  | cons a l ih =>
    rw [recordAll, List.foldl_cons, ← recordAll]
    rw [ih (recordDecision st a.ball a.paddle a.cw a.ch a.action)]
    simp [recordDecision, buildArg]

/-- Closed form of folding `pushSample` from a buffer within capacity:
the result is the suffix of `buf ++ l` that fits in `maxTrainingData`
(truncated natural subtraction makes this the whole list while below
capacity). -/
theorem foldl_pushSample (l : List Sample) : ∀ buf : List Sample,
    buf.length ≤ maxTrainingData →
      l.foldl pushSample buf =
        (buf ++ l).drop (buf.length + l.length - maxTrainingData) := by
  induction l with
  | nil =>
    intro buf h
    simp [Nat.sub_eq_zero_of_le h]
  | cons s l ih =>
    intro buf h
    rw [List.foldl_cons]
    rcases lt_or_eq_of_le h with hlt | heq
    · have hps : pushSample buf s = buf ++ [s] := by
        rw [pushSample, if_neg]
        simp only [List.length_append, List.length_singleton, List.length_cons,
          List.length_nil, maxTrainingData] at hlt ⊢
        omega
      have hlen1 : (buf ++ [s]).length ≤ maxTrainingData := by
        simp only [List.length_append, List.length_singleton, List.length_cons,
          List.length_nil, maxTrainingData] at hlt ⊢
        omega
      rw [hps, ih _ hlen1, List.append_assoc, List.singleton_append]
      have e3 : (buf ++ [s]).length + l.length - maxTrainingData =
          buf.length + (s :: l).length - maxTrainingData := by
        have e4 : (buf ++ [s]).length + l.length = buf.length + (s :: l).length := by
          simp only [List.length_append, List.length_singleton, List.length_cons,
            List.length_nil]
          omega
        rw [e4]
      rw [e3]
    · cases buf with
      | nil => simp [maxTrainingData] at heq
      | cons b0 bt =>
        simp only [List.length_cons, maxTrainingData] at heq
        have hps : pushSample (b0 :: bt) s = bt ++ [s] := by
          rw [pushSample, if_pos]
          · rw [List.cons_append, List.tail_cons]
          · simp only [List.length_append, List.length_cons, List.length_singleton,
              maxTrainingData]
            omega
        have hlen1 : (bt ++ [s]).length ≤ maxTrainingData := by
          simp only [List.length_append, List.length_singleton, List.length_cons,
            List.length_nil, maxTrainingData]
          omega
        rw [hps, ih _ hlen1]
        have e1 : (bt ++ [s]).length + l.length - maxTrainingData = l.length := by
          simp only [List.length_append, List.length_singleton, List.length_cons,
            List.length_nil, maxTrainingData]
          omega
        have e2 : (b0 :: bt).length + (s :: l).length - maxTrainingData =
            l.length + 1 := by
          simp only [List.length_cons, maxTrainingData]
          omega
        rw [e1, e2, List.append_assoc, List.singleton_append, List.cons_append,
          List.drop_succ_cons]

/-- Claim C8: the training buffer of `recordDecision` is a bounded
FIFO of capacity 200 — each call keeps the length at most 200, and 250
insertions into an empty buffer leave exactly the 200 most recent
samples in insertion order (the oldest 50 evicted). -/
theorem C8_buffer_bounded_fifo :
    (∀ (st : Ctrl) (ball : BallG) (paddle : PaddleG) (cw ch : ℚ) (action : ℤ),
      st.trainingData.length ≤ maxTrainingData →
        (recordDecision st ball paddle cw ch action).trainingData.length ≤
          maxTrainingData) ∧
    (∀ (net : List Layer) (l : List RecArg), l.length = 250 →
      (recordAll ⟨net, []⟩ l).trainingData = (l.map buildArg).drop 50 ∧
        (recordAll ⟨net, []⟩ l).trainingData.length = 200) := by
  constructor
  · intro st ball paddle cw ch action h
    simp only [recordDecision, pushSample]
    split
    · simp only [List.length_tail, List.length_append, List.length_singleton,
        List.length_cons, List.length_nil, maxTrainingData] at h ⊢
      omega
    · next hcond =>
      exact le_of_not_lt hcond
  · intro net l hl
    rw [recordAll_eq]
    have hfold := foldl_pushSample (l.map buildArg) [] (by simp [maxTrainingData])
    simp only [List.nil_append, List.length_nil, Nat.zero_add] at hfold
    have hml : (l.map buildArg).length = 250 := by simp [hl]
    constructor
    · rw [hfold, hml]
      norm_num [maxTrainingData]
    · rw [hfold, List.length_drop, hml]
      norm_num [maxTrainingData]

/-- Witness for C8 at a concrete state and a concrete list of 250
recorded decisions. -/
theorem C8_buffer_bounded_fifo_witness :
    ((Ctrl.mk zeroNet []).trainingData.length ≤ maxTrainingData ∧
      (recordDecision ⟨zeroNet, []⟩ arg8.ball arg8.paddle arg8.cw arg8.ch
        arg8.action).trainingData.length ≤ maxTrainingData) ∧
    ((List.replicate 250 arg8).length = 250 ∧
      (recordAll ⟨zeroNet, []⟩ (List.replicate 250 arg8)).trainingData =
        ((List.replicate 250 arg8).map buildArg).drop 50) := by
  refine ⟨⟨by decide, ?_⟩, by simp, ?_⟩
  · exact C8_buffer_bounded_fifo.1 ⟨zeroNet, []⟩ arg8.ball arg8.paddle arg8.cw
      arg8.ch arg8.action (by decide)
  · exact (C8_buffer_bounded_fifo.2 zeroNet (List.replicate 250 arg8) (by simp)).1

/-! ## C2 / C3: forward-pass failure behavior and the softmax output -/

/-- The inner loop succeeds iff the input is not longer than the
weight-row list (success case). -/
theorem dotColumn_isSome (xs : List ℚ) : ∀ (rows : List (List ℚ)) (j : ℕ),
    xs.length ≤ rows.length → ∃ s, dotColumn xs rows j = some s := by
  induction xs with
  | nil => intro rows j _; exact ⟨0, rfl⟩
  | cons x xs ih =>
    intro rows j h
    cases rows with
    | nil => simp at h
    | cons row rest =>
      obtain ⟨s, hs⟩ := ih rest j (by simpa using h)
      exact ⟨x * row.getD j 0 + s, by simp [dotColumn, hs]⟩

/-- The inner loop throws (reads a row past the matrix) iff the input
is longer than the weight-row list (failure case). -/
theorem dotColumn_none (xs : List ℚ) : ∀ (rows : List (List ℚ)) (j : ℕ),
    rows.length < xs.length → dotColumn xs rows j = none := by
  induction xs with
  | nil => intro rows j h; simp at h
  | cons x xs ih =>
    intro rows j h
    cases rows with
    | nil => rfl
    | cons row rest => simp [dotColumn, ih rest j (by simpa using h)]

theorem mmCols_isSome (input : List ℚ) (weights : List (List ℚ))
    (biases : List ℚ) (js : List ℕ) (h : input.length ≤ weights.length) :
    ∃ out, mmCols input weights biases js = some out ∧ out.length = js.length := by
  induction js with
  | nil => exact ⟨[], rfl, rfl⟩
  | cons j js ih =>
    obtain ⟨s, hs⟩ := dotColumn_isSome input weights j h
    obtain ⟨out, ho, hl⟩ := ih
    exact ⟨(biases.getD j 0 + s) :: out, by simp [mmCols, hs, ho], by simp [hl]⟩

theorem mmCols_none (input : List ℚ) (weights : List (List ℚ))
    (biases : List ℚ) (j : ℕ) (js : List ℕ)
    (h : weights.length < input.length) :
    mmCols input weights biases (j :: js) = none := by
  simp [mmCols, dotColumn_none input weights j h]

theorem matrixMultiply_isSome (input : List ℚ) (w0 : List ℚ)
    (rest : List (List ℚ)) (biases : List ℚ)
    (h : input.length ≤ (w0 :: rest).length) :
    ∃ out, matrixMultiply input (w0 :: rest) biases = some out ∧
      out.length = w0.length := by
  obtain ⟨out, ho, hl⟩ := mmCols_isSome input (w0 :: rest) biases
    (List.range w0.length) h
  exact ⟨out, ho, by simp [hl]⟩

theorem matrixMultiply_none (input : List ℚ) (w0 : List ℚ)
    (rest : List (List ℚ)) (biases : List ℚ) (hc : 0 < w0.length)
    (h : (w0 :: rest).length < input.length) :
    matrixMultiply input (w0 :: rest) biases = none := by
  rw [matrixMultiply]
  obtain ⟨n, hn⟩ := Nat.exists_eq_succ_of_ne_zero (Nat.pos_iff_ne_zero.mp hc)
  rw [hn, List.range_succ_eq_map]
  exact mmCols_none input (w0 :: rest) biases 0 _ h

/-- For a `createNetwork`-shaped network and an input of length at
most 4, the forward pass succeeds and its output is the softmax of a
3-element logit vector. -/
theorem forwardPass_shaped (ef : ℚ → ℚ) (net : List Layer) (inputs : List ℚ)
    (hsh : NetShaped net) (hlen : inputs.length ≤ 4) :
    ∃ z3 acts, forwardPass ef net inputs = some (softmaxE ef z3, acts) ∧
      z3.length = 3 := by
  match net, hsh with
  | [L0, L1, L2], ⟨⟨hr0, hc0, _, ha0⟩, ⟨hr1, hc1, _, ha1⟩, ⟨hr2, hc2, _, ha2⟩⟩ =>
    match hw0 : L0.weights, hr0 with
    | w0 :: rest0, _ =>
      have hw0len : w0.length = 16 :=
        hc0 w0 (by rw [hw0]; exact List.mem_cons_self _ _)
      obtain ⟨z1, hz1, hz1len⟩ := matrixMultiply_isSome inputs w0 rest0 L0.biases
        (by rw [← hw0, hr0]; exact hlen)
      have ha1len : (applyActivation ef L0.activation z1).length = 16 := by
        rw [ha0, applyActivation]
        simp [hz1len, hw0len]
      match hw1 : L1.weights, hr1 with
      | w1 :: rest1, _ =>
        have hw1len : w1.length = 8 :=
          hc1 w1 (by rw [hw1]; exact List.mem_cons_self _ _)
        obtain ⟨z2, hz2, hz2len⟩ := matrixMultiply_isSome
          (applyActivation ef L0.activation z1) w1 rest1 L1.biases
          (by rw [ha1len, ← hw1, hr1])
        have ha2len : (applyActivation ef L1.activation z2).length = 8 := by
          rw [ha1, applyActivation]
          simp [hz2len, hw1len]
        match hw2 : L2.weights, hr2 with
        | w2 :: rest2, _ =>
          have hw2len : w2.length = 3 :=
            hc2 w2 (by rw [hw2]; exact List.mem_cons_self _ _)
          obtain ⟨z3, hz3, hz3len⟩ := matrixMultiply_isSome
            (applyActivation ef L1.activation z2) w2 rest2 L2.biases
            (by rw [ha2len, ← hw2, hr2])
          have hfa : forwardAux ef [L0, L1, L2] inputs = some
              [applyActivation ef L0.activation z1,
               applyActivation ef L1.activation z2,
               applyActivation ef L2.activation z3] := by
            simp only [forwardAux, hw0, hz1, hw1, hz2, hw2, hz3,
              Option.bind_eq_bind, Option.some_bind]
            rfl
          refine ⟨z3, [inputs, applyActivation ef L0.activation z1,
            applyActivation ef L1.activation z2, softmaxE ef z3], ?_,
            by rw [hz3len, hw2len]⟩
          rw [forwardPass, hfa]
          simp [applyActivation, ha2, List.getLast?]

/-- Claim C2 (amended): for a `createNetwork`-shaped network, the
forward pass fails — the JavaScript code throws a `TypeError`, the
embedding returns `none` — exactly when the input vector is *longer*
than the expected 4 entries.  A shorter vector is silently accepted:
the loop simply consumes the rows that exist (see the
counterexample). -/
theorem C2_length_mismatch (ef : ℚ → ℚ) (net : List Layer) (inputs : List ℚ)
    (hsh : NetShaped net) :
    (forwardPass ef net inputs = none ↔ 4 < inputs.length) := by
  constructor
  · intro hnone
    by_contra hle
    push_neg at hle
    obtain ⟨z3, acts, hfp, _⟩ := forwardPass_shaped ef net inputs hsh hle
    rw [hfp] at hnone
    exact Option.noConfusion hnone
  · intro hgt
    match net, hsh with
    | [L0, L1, L2], ⟨⟨hr0, hc0, _, _⟩, _, _⟩ =>
      match hw0 : L0.weights, hr0 with
      | w0 :: rest0, _ =>
        have hw0len : w0.length = 16 :=
          hc0 w0 (by rw [hw0]; exact List.mem_cons_self _ _)
        have hmm : matrixMultiply inputs (w0 :: rest0) L0.biases = none :=
          matrixMultiply_none inputs w0 rest0 L0.biases (by rw [hw0len]; norm_num)
            (by rw [← hw0, hr0]; exact hgt)
        have hfa : forwardAux ef [L0, L1, L2] inputs = none := by
          simp [forwardAux, hw0, hmm]
        rw [forwardPass, hfa]
        rfl

/-- Witness for C2: a 5-entry input makes the forward pass fail on the
concrete all-zero network of the right shape. -/
theorem C2_length_mismatch_witness :
    NetShaped zeroNet ∧ 4 < ([0, 0, 0, 0, 0] : List ℚ).length ∧
      forwardPass efOne zeroNet [0, 0, 0, 0, 0] = none := by
  refine ⟨by decide, by decide, ?_⟩
  exact (C2_length_mismatch efOne zeroNet [0, 0, 0, 0, 0] (by decide)).mpr
    (by decide)

/-- Counterexample for C2 as stated: the empty input vector (length 0
≠ 4) does *not* fail — the forward pass silently computes a result
(each unit's sum just uses no input terms). -/
theorem C2_counterexample :
    (forwardPass efOne zeroNet []).isSome = true ∧ ([] : List ℚ).length ≠ 4 := by
  with_unfolding_all decide

/-- Identity `(l.map (· / c)).sum = l.sum / c` — division distributes over a
list sum. -/
theorem sum_map_div (l : List ℚ) (c : ℚ) :
    (l.map (fun x => x / c)).sum = l.sum / c := by
  induction l with
  | nil => simp
  | cons a l ih => simp [ih, add_div]

/-- The normalized-exponential output is a probability distribution
whenever the exponential map is positive and the logit vector is
nonempty. -/
theorem softmaxE_distribution (ef : ℚ → ℚ) (hpos : ∀ x, 0 < ef x)
    (values : List ℚ) (hne : values ≠ []) :
    (∀ v ∈ softmaxE ef values, 0 ≤ v) ∧ (softmaxE ef values).sum = 1 := by
  have hexps : ∀ v ∈ values.map (fun v => ef (v - listMax values)), 0 < v := by
    intro v hv
    obtain ⟨w, _, rfl⟩ := List.mem_map.mp hv
    exact hpos _
  have hsumpos : 0 < (values.map (fun v => ef (v - listMax values))).sum :=
    List.sum_pos _ hexps (by simpa using hne)
  constructor
  · intro v hv
    simp only [softmaxE] at hv
    obtain ⟨w, hw, rfl⟩ := List.mem_map.mp hv
    exact div_nonneg (le_of_lt (hexps w hw)) (le_of_lt hsumpos)
  · simp only [softmaxE]
    rw [sum_map_div]
    exact div_self (ne_of_gt hsumpos)

/-- Claim C3: for every input vector of length 4 (and a positive
exponential map, true of `Math.exp`), the forward pass on a
`createNetwork`-shaped network succeeds and its final 3-vector is a
probability distribution: entries ≥ 0 summing exactly to 1 in the
exact arithmetic of the embedding. -/
theorem C3_softmax_distribution (ef : ℚ → ℚ) (net : List Layer)
    (inputs : List ℚ) (hsh : NetShaped net) (hpos : ∀ x, 0 < ef x)
    (hlen : inputs.length = 4) :
    ∃ out acts, forwardPass ef net inputs = some (out, acts) ∧
      out.length = 3 ∧ (∀ v ∈ out, 0 ≤ v) ∧ out.sum = 1 := by
  obtain ⟨z3, acts, hfp, hz3⟩ :=
    forwardPass_shaped ef net inputs hsh (le_of_eq hlen)
  have hne : z3 ≠ [] := by
    intro h
    rw [h] at hz3
    simp at hz3
  have hdist := softmaxE_distribution ef hpos z3 hne
  have hlen3 : (softmaxE ef z3).length = 3 := by
    simp [softmaxE, hz3]
  exact ⟨softmaxE ef z3, acts, hfp, hlen3, hdist.1, hdist.2⟩

/-- Witness for C3: Scenario B's shape — a concrete length-4 input
into a concrete `createNetwork`-shaped network. -/
theorem C3_softmax_distribution_witness :
    NetShaped zeroNet ∧ (∀ x, 0 < efOne x) ∧
      ([0, 0, 0, 0] : List ℚ).length = 4 ∧
      ∃ out acts, forwardPass efOne zeroNet [0, 0, 0, 0] = some (out, acts) ∧
        out.length = 3 ∧ (∀ v ∈ out, 0 ≤ v) ∧ out.sum = 1 := by
  refine ⟨by decide, fun x => by norm_num [efOne], by decide, ?_⟩
  exact C3_softmax_distribution efOne zeroNet [0, 0, 0, 0] (by decide)
    (fun x => by norm_num [efOne]) (by decide)

/-! ## C4: range and termination of `predict` -/

/-- Each pass of the reflection loop either finishes or brings `y`
closer to `[0, ch]` by exactly `ch`; with enough fuel (one more than
`distQ y ch / ch`) the loop terminates. -/
theorem foldY_term (ch : ℚ) (hch : 0 < ch) : ∀ (k : ℕ) (y : ℚ),
    distQ y ch ≤ (k : ℚ) * ch → ∃ y', foldY (k + 1) y ch = some y' := by
  intro k
  induction k with
  | zero =>
    intro y h
    have hin : ¬(y < 0 ∨ y > ch) := by
      rw [distQ] at h
      push_cast at h
      rintro (h1 | h2)
      · rw [if_pos h1] at h
        linarith
      · have h1 : ¬(y < 0) := by
          intro h0
          exact absurd (lt_trans hch h2) (lt_asymm h0)
        rw [if_neg h1, if_pos h2] at h
        linarith
    rw [foldY, if_neg hin]
    exact ⟨y, rfl⟩
  | succ k ih =>
    intro y h
    by_cases hin : y < 0 ∨ y > ch
    · rw [foldY, if_pos hin]
      have hk0 : (0 : ℚ) ≤ (k : ℚ) * ch :=
        mul_nonneg (Nat.cast_nonneg k) (le_of_lt hch)
      by_cases h1 : y < 0
      · rw [if_pos h1]
        apply ih
        rw [distQ, if_pos h1] at h
        push_cast at h
        rw [distQ]
        have hny : ¬(-y < 0) := by linarith
        rw [if_neg hny]
        by_cases h2 : -y > ch
        · rw [if_pos h2]
          push_cast
          linarith
        · rw [if_neg h2]
          exact hk0
      · rw [if_neg h1]
        have h2 : y > ch := hin.resolve_left h1
        rw [distQ, if_neg h1, if_pos h2] at h
        push_cast at h
        apply ih
        rw [distQ]
        by_cases h3 : 2 * ch - y < 0
        · rw [if_pos h3]
          push_cast
          linarith
        · rw [if_neg h3]
          have h4 : ¬(2 * ch - y > ch) := by linarith
          rw [if_neg h4]
          exact hk0
    · rw [foldY, if_neg hin]
      exact ⟨y, rfl⟩

/-- With a positive canvas height the reflection loop terminates for
some fuel (the JavaScript loop terminates). -/
theorem foldY_exists (y ch : ℚ) (hch : 0 < ch) :
    ∃ n y', foldY n y ch = some y' := by
  obtain ⟨k, hk⟩ := exists_nat_ge (distQ y ch / ch)
  have hle : distQ y ch ≤ (k : ℚ) * ch := by
    rw [div_le_iff hch] at hk
    exact hk
  obtain ⟨y', hy'⟩ := foldY_term ch hch k y hle
  exact ⟨k + 1, y', hy'⟩

/-- Claim C4 (amended): for every game state with a positive canvas
height and nonzero horizontal ball speed — the conditions under which
the `predictBallY` reflection loop terminates and its arithmetic is
finite — `predict` returns, and returns one of −1, 0, or +1.  The
counterexample shows the claim fails without these conditions. -/
theorem C4_predict_range (ef : ℚ → ℚ) (net : List Layer) (ball : BallG)
    (paddle : PaddleG) (cw ch : ℚ) (hsh : NetShaped net) (hch : 0 < ch)
    (hsx : ball.speedX ≠ 0) :
    ∃ fuel r, predict ef fuel net ball paddle cw ch = some r ∧
      (r = -1 ∨ r = 0 ∨ r = 1) := by
  obtain ⟨z3, acts, hfp, _⟩ := forwardPass_shaped ef net
    (normalizeInputs ball paddle cw ch) hsh (by rw [normalizeInputs]; rfl)
  obtain ⟨n, y', hy'⟩ := foldY_exists
    (ball.y + ball.speedY * (|paddle.x - ball.x| / |ball.speedX|)) ch hch
  have hpb : predictBallY n ball paddle.x cw ch = some y' := by
    rw [predictBallY]
    exact hy'
  refine ⟨n, ?_⟩
  simp only [predict, hfp, hpb]
  split_ifs <;>
    first
      | exact ⟨0, rfl, Or.inr (Or.inl rfl)⟩
      | exact ⟨1, rfl, Or.inr (Or.inr rfl)⟩
      | exact ⟨-1, rfl, Or.inl rfl⟩

/-- Witness for C4 at a concrete state (canvas 200×400, ball speed
(5, 2)) and a concrete shaped network. -/
theorem C4_predict_range_witness :
    NetShaped zeroNet ∧ (0 : ℚ) < 400 ∧ (⟨0, 5, 5, 2⟩ : BallG).speedX ≠ 0 ∧
      ∃ fuel r, predict efOne fuel zeroNet ⟨0, 5, 5, 2⟩ ⟨100, 50, 20⟩ 200 400 =
        some r ∧ (r = -1 ∨ r = 0 ∨ r = 1) := by
  refine ⟨by decide, by norm_num, by norm_num, ?_⟩
  exact C4_predict_range efOne zeroNet ⟨0, 5, 5, 2⟩ ⟨100, 50, 20⟩ 200 400
    (by decide) (by norm_num) (by norm_num)

/-- The reflection loop with canvas height 0 started at `y = 5`
alternates 5 → −5 → 5 → … and never terminates, whatever the fuel. -/
theorem foldY_diverges : ∀ n : ℕ,
    foldY n 5 0 = none ∧ foldY n (-5) 0 = none := by
  intro n
  induction n with
  | zero =>
    constructor <;> · rw [foldY, if_pos (by norm_num)]
  | succ n ih =>
    constructor
    · rw [foldY, if_pos (by norm_num)]
      have harg : (if (5 : ℚ) < 0 then -(5 : ℚ) else 2 * 0 - 5) = -5 := by
        norm_num
      rw [harg]
      exact ih.2
    · rw [foldY, if_pos (by norm_num)]
      have harg : (if (-5 : ℚ) < 0 then -(-5 : ℚ) else 2 * 0 - (-5)) = 5 := by
        norm_num
      rw [harg]
      exact ih.1

/-- Counterexample for C4 as stated: at the game state `ball4` /
`paddle4` with canvas height 0 the predicted `y` is 5 and the bounce
loop cycles forever, so `predict` never returns (is `none` for every
fuel) — it certainly does not return one of −1, 0, 1.  (The JavaScript
code also diverges for `ball.speedX = 0` via `timeToReach =
Infinity`, a float behavior outside this exact embedding.) -/
theorem C4_counterexample :
    ¬ predictEverReturns efOne zeroNet ball4 paddle4 100 0 := by
  rintro ⟨fuel, r, h⟩
  have hpb : predictBallY fuel ball4 paddle4.x 100 0 = none := by
    have harg : predictBallY fuel ball4 paddle4.x 100 0 = foldY fuel 5 0 := by
      simp only [predictBallY, ball4, paddle4]
      norm_num
    rw [harg]
    exact (foldY_diverges fuel).1
  cases hf : forwardPass efOne zeroNet (normalizeInputs ball4 paddle4 100 0) with
  | none => simp [predict, hf] at h
  | some v => simp [predict, hf, hpb] at h

/-! ## C1: the backpropagation update rule -/

theorem getD_zipWith {α β γ : Type} (f : α → β → γ) (da : α) (db : β) (dc : γ) :
    ∀ (l1 : List α) (l2 : List β) (i : ℕ), i < l1.length → i < l2.length →
      (List.zipWith f l1 l2).getD i dc = f (l1.getD i da) (l2.getD i db) := by
  intro l1
  induction l1 with
  | nil => intro l2 i h1 _; simp at h1
  | cons a l1 ih =>
    intro l2 i h1 h2
    cases l2 with
    | nil => simp at h2
    | cons b l2 =>
      cases i with
      | zero => rfl
      | succ i =>
        simp only [List.zipWith_cons_cons, List.getD_cons_succ]
        exact ih l2 i (by simpa using h1) (by simpa using h2)

theorem getD_append_left {α : Type} (d : α) :
    ∀ (l1 l2 : List α) (i : ℕ), i < l1.length →
      (l1 ++ l2).getD i d = l1.getD i d := by
  intro l1
  induction l1 with
  | nil => intro l2 i h; simp at h
  | cons a l1 ih =>
    intro l2 i h
    cases i with
    | zero => rfl
    | succ i =>
      simp only [List.cons_append, List.getD_cons_succ]
      exact ih l2 i (by simpa using h)

theorem updColumnwise_getD (lr ai : ℚ) (error row : List ℚ) (j : ℕ)
    (hj : j < error.length) (hjr : j < row.length) :
    (updColumnwise lr ai error row).getD j 0 =
      row.getD j 0 + lr * error.getD j 0 * ai := by
  rw [updColumnwise, getD_append_left _ _ _ _
    (by rw [List.length_zipWith]; omega)]
  exact getD_zipWith _ 0 0 0 error row j hj hjr

theorem updColumnwise_length (lr ai : ℚ) (error row : List ℚ) :
    (updColumnwise lr ai error row).length = row.length := by
  simp only [updColumnwise, List.length_append, List.length_zipWith,
    List.length_drop]
  omega

theorem updBiases_getD (lr : ℚ) (error biases : List ℚ) (j : ℕ)
    (hj : j < error.length) (hjb : j < biases.length) :
    (updBiases lr error biases).getD j 0 =
      biases.getD j 0 + lr * error.getD j 0 := by
  rw [updBiases, getD_append_left _ _ _ _
    (by rw [List.length_zipWith]; omega)]
  exact getD_zipWith _ 0 0 0 error biases j hj hjb

theorem zipWith_mul_sum : ∀ (l1 l2 : List ℚ), l1.length = l2.length →
    (List.zipWith (fun a b => a * b) l1 l2).sum =
      ∑ j ∈ Finset.range l1.length, l1.getD j 0 * l2.getD j 0 := by
  intro l1
  induction l1 with
  | nil => intro l2 _; simp
  | cons a l1 ih =>
    intro l2 h
    cases l2 with
    | nil => simp at h
    | cons b l2 =>
      simp only [List.zipWith_cons_cons, List.sum_cons, List.length_cons]
      rw [Finset.sum_range_succ']
      simp only [List.getD_cons_succ, List.getD_cons_zero]
      rw [ih l2 (by simpa using h)]
      ring

theorem rawNextError_length (lr : ℚ) (error prevAct : List ℚ)
    (W : List (List ℚ)) :
    (rawNextError lr error prevAct W).length = min prevAct.length W.length := by
  simp [rawNextError, List.length_zipWith]

/-- Entry `i` of the propagated error: the dot product of the incoming
error with row `i` as already updated by the same call. -/
theorem rawNextError_getD (lr : ℚ) (error prevAct : List ℚ)
    (W : List (List ℚ)) (i : ℕ) (hi : i < prevAct.length) (hiW : i < W.length)
    (hrow : (W.getD i []).length = error.length) :
    (rawNextError lr error prevAct W).getD i 0 =
      ∑ j ∈ Finset.range error.length,
        error.getD j 0 * ((W.getD i []).getD j 0 +
          lr * error.getD j 0 * prevAct.getD i 0) := by
  rw [rawNextError, getD_zipWith _ 0 [] 0 prevAct W i hi hiW]
  rw [zipWith_mul_sum _ _ (by rw [updColumnwise_length, hrow])]
  refine Finset.sum_congr rfl ?_
  intro j hj
  rw [Finset.mem_range] at hj
  rw [updColumnwise_getD lr _ error _ j hj (by omega)]

theorem stepLayer_weights (lr : ℚ) (fst : Bool) (L : Layer) (pa err : List ℚ)
    (i j : ℕ) (hi : i < pa.length) (hiW : i < L.weights.length)
    (hj : j < err.length) (hjr : j < (L.weights.getD i []).length) :
    (((stepLayer lr fst L pa err).1.weights).getD i []).getD j 0 =
      (L.weights.getD i []).getD j 0 + lr * err.getD j 0 * pa.getD i 0 := by
  simp only [stepLayer]
  rw [getD_append_left _ _ _ _ (by rw [List.length_zipWith]; omega)]
  rw [getD_zipWith _ 0 [] [] pa L.weights i hi hiW]
  exact updColumnwise_getD lr _ err _ j hj hjr

theorem stepLayer_biases (lr : ℚ) (fst : Bool) (L : Layer) (pa err : List ℚ)
    (j : ℕ) (hj : j < err.length) (hjb : j < L.biases.length) :
    ((stepLayer lr fst L pa err).1.biases).getD j 0 =
      L.biases.getD j 0 + lr * err.getD j 0 := by
  simp only [stepLayer]
  exact updBiases_getD lr err L.biases j hj hjb

/-- A softmax layer propagates the raw (ungated) weighted sum: the
relu gate is keyed to the processed layer's own activation. -/
theorem stepLayer_error_softmax (lr : ℚ) (L : Layer) (pa err : List ℚ)
    (hact : L.activation = Act.softmax) :
    (stepLayer lr false L pa err).2 = rawNextError lr err pa L.weights := by
  simp [stepLayer, hact]

/-- A (non-first) relu layer gates the propagated error by its own
input activations. -/
theorem stepLayer_error_relu (lr : ℚ) (L : Layer) (pa err : List ℚ)
    (hact : L.activation = Act.relu) :
    (stepLayer lr false L pa err).2 =
      List.zipWith (fun ai x => if ai > 0 then x else 0) pa
        (rawNextError lr err pa L.weights) := by
  simp [stepLayer, hact]

/-- Unfolding: `updateWeights` on the three-layer network is the composition of
the three `stepLayer` calls, last layer first. -/
theorem updateWeights_three (lr : ℚ) (L0 L1 L2 : Layer)
    (a0 a1 a2 a3 e3 : List ℚ) :
    updateWeights lr [L0, L1, L2] [a0, a1, a2, a3] e3 =
      [(stepLayer lr true L0 a0
          (stepLayer lr false L1 a1 (stepLayer lr false L2 a2 e3).2).2).1,
       (stepLayer lr false L1 a1 (stepLayer lr false L2 a2 e3).2).1,
       (stepLayer lr false L2 a2 e3).1] := rfl

theorem incomingError_one (lr : ℚ) (L0 L1 L2 : Layer)
    (a0 a1 a2 a3 e3 : List ℚ) :
    incomingError lr [L0, L1, L2] [a0, a1, a2, a3] e3 1 =
      (stepLayer lr false L2 a2 e3).2 := rfl

theorem incomingError_zero (lr : ℚ) (L0 L1 L2 : Layer)
    (a0 a1 a2 a3 e3 : List ℚ) :
    incomingError lr [L0, L1, L2] [a0, a1, a2, a3] e3 0 =
      (stepLayer lr false L1 a1 (stepLayer lr false L2 a2 e3).2).2 := rfl

/-- Claim C1 (amended): on a relu/relu/softmax three-layer network of
consistent shapes, `updateWeights` changes each weight by
`learningRate × error[j] × inputActivation[i]` and each bias by
`learningRate × error[j]` (with `error` the vector actually handed to
that layer), and propagates error backwards as the weighted sum of the
current layer's errors through its just-updated weight matrix — but
the rectified-linear derivative gate is keyed to the *processed*
layer's activation: the error leaving the softmax output layer into
the last hidden relu layer is NOT gated (a hidden unit with
activation ≤ 0 can receive nonzero error), and the gate fires only
when the processed layer itself is relu (here: between the two hidden
layers). -/
theorem C1_backprop_rule (lr : ℚ) (L0 L1 L2 : Layer) (a0 a1 a2 a3 e3 : List ℚ)
    (ha1 : L1.activation = Act.relu) (ha2 : L2.activation = Act.softmax)
    (hW2r : L2.weights.length = a2.length)
    (hW2c : ∀ row ∈ L2.weights, row.length = e3.length)
    (hb2 : L2.biases.length = e3.length)
    (hW1r : L1.weights.length = a1.length)
    (hW1c : ∀ row ∈ L1.weights, row.length = a2.length)
    (hb1 : L1.biases.length = a2.length)
    (hW0r : L0.weights.length = a0.length)
    (hW0c : ∀ row ∈ L0.weights, row.length = a1.length)
    (hb0 : L0.biases.length = a1.length) :
    BackpropDescribes lr L0 L1 L2 a0 a1 a2 a3 e3 := by
  have hrow2 : ∀ i < L2.weights.length, (L2.weights.getD i []).length = e3.length := by
    intro i hi
    rw [List.getD_eq_getElem L2.weights [] hi]
    exact hW2c _ (List.getElem_mem hi)
  have hrow1 : ∀ i < L1.weights.length, (L1.weights.getD i []).length = a2.length := by
    intro i hi
    rw [List.getD_eq_getElem L1.weights [] hi]
    exact hW1c _ (List.getElem_mem hi)
  have hrow0 : ∀ i < L0.weights.length, (L0.weights.getD i []).length = a1.length := by
    intro i hi
    rw [List.getD_eq_getElem L0.weights [] hi]
    exact hW0c _ (List.getElem_mem hi)
  have hE2 : (stepLayer lr false L2 a2 e3).2 = rawNextError lr e3 a2 L2.weights :=
    stepLayer_error_softmax lr L2 a2 e3 ha2
  have hE2len : (stepLayer lr false L2 a2 e3).2.length = a2.length := by
    rw [hE2, rawNextError_length, hW2r]
    omega
  have hE1 : (stepLayer lr false L1 a1 (stepLayer lr false L2 a2 e3).2).2 =
      List.zipWith (fun ai x => if ai > 0 then x else 0) a1
        (rawNextError lr (stepLayer lr false L2 a2 e3).2 a1 L1.weights) :=
    stepLayer_error_relu lr L1 a1 _ ha1
  have hE1len :
      (stepLayer lr false L1 a1 (stepLayer lr false L2 a2 e3).2).2.length =
        a1.length := by
    rw [hE1, List.length_zipWith, rawNextError_length, hW1r]
    omega
  simp only [BackpropDescribes, incomingError_one, incomingError_zero,
    updateWeights_three, List.getD_cons_zero, List.getD_cons_succ]
  refine ⟨?_, ?_, ?_, ?_, ?_, ?_, ?_, ?_⟩
  · intro i hi
    rw [hE2]
    exact rawNextError_getD lr e3 a2 L2.weights i hi (by omega)
      (hrow2 i (by omega))
  · intro i hi
    rw [hE1, getD_zipWith _ 0 0 0 a1 _ i hi
      (by rw [rawNextError_length, hW1r]; omega)]
    rw [rawNextError_getD lr _ a1 L1.weights i hi (by omega)
      (by rw [hrow1 i (by omega), hE2len])]
  · intro i hi j hj
    exact stepLayer_weights lr false L2 a2 e3 i j hi (by omega) hj
      (by rw [hrow2 i (by omega)]; exact hj)
  · intro j hj
    exact stepLayer_biases lr false L2 a2 e3 j hj (by omega)
  · intro i hi j hj
    exact stepLayer_weights lr false L1 a1 _ i j hi (by omega) hj
      (by rw [hrow1 i (by omega), ← hE2len]; exact hj)
  · intro j hj
    exact stepLayer_biases lr false L1 a1 _ j hj
      (by rw [hb1, ← hE2len]; exact hj)
  · intro i hi j hj
    exact stepLayer_weights lr true L0 a0 _ i j hi (by omega) hj
      (by rw [hrow0 i (by omega), ← hE1len]; exact hj)
  · intro j hj
    exact stepLayer_biases lr true L0 a0 _ j hj
      (by rw [hb0, ← hE1len]; exact hj)

/-- Witness for C1 at a concrete one-unit-per-layer network of
consistent shapes. -/
theorem C1_backprop_rule_witness :
    (wLay1.activation = Act.relu ∧ wLay2.activation = Act.softmax ∧
      wLay2.weights.length = ([4] : List ℚ).length ∧
      (∀ row ∈ wLay2.weights, row.length = ([1] : List ℚ).length) ∧
      wLay2.biases.length = ([1] : List ℚ).length ∧
      wLay1.weights.length = ([3] : List ℚ).length ∧
      (∀ row ∈ wLay1.weights, row.length = ([4] : List ℚ).length) ∧
      wLay1.biases.length = ([4] : List ℚ).length ∧
      wLay0.weights.length = ([1] : List ℚ).length ∧
      (∀ row ∈ wLay0.weights, row.length = ([3] : List ℚ).length) ∧
      wLay0.biases.length = ([3] : List ℚ).length) ∧
    BackpropDescribes 1 wLay0 wLay1 wLay2 [1] [3] [4] [1] [1] := by
  refine ⟨by decide, ?_⟩
  exact C1_backprop_rule 1 wLay0 wLay1 wLay2 [1] [3] [4] [1] [1]
    (by decide) (by decide) (by decide) (by decide) (by decide) (by decide)
    (by decide) (by decide) (by decide) (by decide) (by decide)

/-- Counterexample for C1 as stated: a reachable training call —
`punish()` on a controller with 20 recorded samples and a
`createNetwork`-shaped weight assignment — processes a sample
(`gateSample`, the head of the `slice(-30)` window) whose forward pass
yields exactly the activations `gateActs` and, with rewardFactor −0.5,
the output error `gateErr`.  Inside the resulting `updateWeights`
invocation the error propagated to unit 0 of the last hidden
rectified-linear layer is 1/6 ≠ 0 even though that unit's forward
activation is 0 (≤ 0): the claimed derivative gate does not zero it,
because the gate is keyed to the processed (softmax) layer. -/
theorem C1_counterexample :
    (Ctrl.mk gateNet (List.replicate 20 gateSample)).trainingData.length = 20 ∧
    ((List.replicate 20 gateSample).drop
        ((List.replicate 20 gateSample).length - 30)).headD ⟨[], []⟩ =
      gateSample ∧
    forwardPass efOne gateNet gateSample.inputs =
      some ([1 / 3, 1 / 3, 1 / 3], gateActs) ∧
    errVec gateSample [1 / 3, 1 / 3, 1 / 3] (-(1 / 2)) = gateErr ∧
    (gateNet.getD 1 ⟨[], [], .relu⟩).activation = Act.relu ∧
    (gateActs.getD 2 []).getD 0 0 ≤ 0 ∧
    (incomingError learningRate gateNet gateActs gateErr 1).getD 0 0 = 1 / 6 ∧
    (1 / 6 : ℚ) ≠ 0 := by
  refine ⟨by decide, by decide, by with_unfolding_all decide,
    by with_unfolding_all decide, by decide, by decide,
    by with_unfolding_all decide, by norm_num⟩

end Pong
